import Mathlib

/-!
# Kupo: player-status to channel-information synchronisation

A shallow embedding of `main.go`.  The package-level variable `state`, the
live credential of the `helix.Client`, the file `state.json` and the sequence
of calls made to the outside are the components of `World`; the answers of the
outside (the player's status endpoint, the remote platform, the file system,
the execution of the title template) during one run are an `Env`.

Go strings are modelled as Lean strings (well-formed Unicode text), a Go
`error` result as `Option Error` (`none` is `nil`) and a Go `(T, error)` result
as `Except Error T`.
-/

namespace Kupo

/-- A Go `error` value, identified with its message. -/
abbrev Error := String

/-- The content of a file, as text. -/
abbrev Bytes := List Char

/-- The record `State` of `main.go`.  Only `AccessToken` and `RefreshToken`
carry a JSON name; `GameName` and `Title` are tagged `json:"-"`. -/
structure State where
  AccessToken : String
  RefreshToken : String
  GameName : String
  Title : String
deriving DecidableEq, Repr

/-- The zero value of `State`. -/
def State.empty : State := ⟨"", "", "", ""⟩

/-- The decoded player status (`type H = map[string]any`), seen through
`strutil.String(maputil.DeepGet(data, path))`: the dotted paths that resolve to
a value with a string form, each with that string. -/
abbrev H := List (String × String)

/-- The first result of `strutil.String(maputil.DeepGet(data, path))`: the
string found under `path`, the empty string when nothing is found there. -/
def deepGetString (data : H) (path : String) : String :=
  match data.lookup path with
  | some v => v
  | none => ""

/-! ## `encoding/json`, as far as `State` uses it

`json.Marshal` of a `State` and `json.Unmarshal` into a `State`.  The text of
the file stands for its UTF-8 bytes. -/

/-- The lower-case hexadecimal digit of `n < 16`. -/
def hexDigit (n : Nat) : Char :=
  if n < 10 then Char.ofNat (48 + n) else Char.ofNat (87 + n)

/-- The value of a hexadecimal digit, of either case. -/
def hexVal (c : Char) : Option Nat :=
  if 48 ≤ c.toNat ∧ c.toNat ≤ 57 then some (c.toNat - 48)
  else if 97 ≤ c.toNat ∧ c.toNat ≤ 102 then some (c.toNat - 87)
  else if 65 ≤ c.toNat ∧ c.toNat ≤ 70 then some (c.toNat - 55)
  else none

/-- The value of four hexadecimal digits (`getu4`). -/
def hex4 (a b c d : Char) : Option Nat :=
  match hexVal a, hexVal b, hexVal c, hexVal d with
  | some x, some y, some z, some t => some (x * 4096 + y * 256 + z * 16 + t)
  | _, _, _, _ => none

/-- The escape sequence `\uXXXX` of a code point below `0x10000`. -/
def escapeU (n : Nat) : Bytes :=
  ['\\', 'u', hexDigit (n / 4096 % 16), hexDigit (n / 256 % 16),
    hexDigit (n / 16 % 16), hexDigit (n % 16)]

/-- How `json.Marshal` writes one character of a string: the quote and the
backslash behind a backslash, the short escapes of backspace, form feed, line
feed, carriage return and tab, `\u00XX` for the other control characters and
for `<`, `>` and `&` (HTML escaping is on in `Marshal`) and for the line and
paragraph separators U+2028 and U+2029, every other character as it is. -/
def escapeChar (c : Char) : Bytes :=
  if c = '"' then ['\\', '"']
  else if c = '\\' then ['\\', '\\']
  else if c.toNat = 8 then ['\\', 'b']
  else if c.toNat = 12 then ['\\', 'f']
  else if c.toNat = 10 then ['\\', 'n']
  else if c.toNat = 13 then ['\\', 'r']
  else if c.toNat = 9 then ['\\', 't']
  else if c.toNat < 32 then escapeU c.toNat
  else if c = '<' then escapeU 60
  else if c = '>' then escapeU 62
  else if c = '&' then escapeU 38
  else if c.toNat = 8232 then escapeU 8232
  else if c.toNat = 8233 then escapeU 8233
  else [c]

/-- The escaped body of a JSON string. -/
def escape : List Char → Bytes
  | [] => []
  | c :: cs => escapeChar c ++ escape cs

/-- A Go string as a JSON string literal. -/
def jsonQuote (s : String) : Bytes :=
  '"' :: (escape s.data ++ ['"'])

/-- Model of `json.Marshal(s)` for `s *State`: an object with the members
`access_token` and `refresh_token`; the fields tagged `json:"-"` are left out.
Marshalling a record of strings has no error. -/
def jsonMarshal (s : State) : Except Error Bytes :=
  .ok ("\x7b\"access_token\":".data ++ jsonQuote s.AccessToken
        ++ ",\"refresh_token\":".data ++ jsonQuote s.RefreshToken ++ ['}'])

/-- Is `n` a UTF-16 surrogate? -/
def isSurrogate (n : Nat) : Bool := 55296 ≤ n && n < 57344

/-- One step through the body of a JSON string literal: `some (none, rest)` at
the closing quote, `some (some d, rest)` for a character or an escape sequence
that stands for `d`, `none` where the literal is not well formed (an unknown
escape, a raw control character, the end of the text).  A `\u` escape of a
surrogate is joined with a following `\u` escape of a low surrogate, and stands
for U+FFFD when it has none. -/
def scanRune (b : Bytes) : Option (Option Char × Bytes) :=
  match b with
  | [] => none
  | c :: rest =>
    if c = '"' then some (none, rest)
    else if c = '\\' then
      match rest with
      | [] => none
      | e :: rest1 =>
        if e = '"' then some (some '"', rest1)
        else if e = '\\' then some (some '\\', rest1)
        else if e = '/' then some (some '/', rest1)
        else if e = 'b' then some (some (Char.ofNat 8), rest1)
        else if e = 'f' then some (some (Char.ofNat 12), rest1)
        else if e = 'n' then some (some (Char.ofNat 10), rest1)
        else if e = 'r' then some (some (Char.ofNat 13), rest1)
        else if e = 't' then some (some (Char.ofNat 9), rest1)
        else if e = 'u' then
          match rest1 with
          | a :: b :: x :: y :: rest2 =>
            match hex4 a b x y with
            | none => none
            | some n =>
              if isSurrogate n then
                match rest2 with
                | bs :: u :: a2 :: b2 :: x2 :: y2 :: rest3 =>
                  if bs = '\\' ∧ u = 'u' then
                    match hex4 a2 b2 x2 y2 with
                    | some m =>
                      if n < 56320 ∧ 56320 ≤ m ∧ m < 57344 then
                        some (some (Char.ofNat ((n - 55296) * 1024 + (m - 56320) + 65536)), rest3)
                      else some (some (Char.ofNat 65533), rest2)
                    | none => none
                  else some (some (Char.ofNat 65533), rest2)
                | _ => some (some (Char.ofNat 65533), rest2)
              else some (some (Char.ofNat n), rest2)
          | _ => none
        else none
    else if c.toNat < 32 then none
    else some (some c, rest)

/-- The body of a JSON string literal read step by step, at most `fuel` steps. -/
def scanStringAux : Nat → Bytes → Option (List Char × Bytes)
  | 0, _ => none
  | fuel + 1, b =>
    match scanRune b with
    | none => none
    | some (none, rest) => some ([], rest)
    | some (some d, rest) => (scanStringAux fuel rest).map (fun r => (d :: r.1, r.2))

/-- The body of a JSON string literal, read up to its closing quote: the
decoded characters and the text after the quote; `none` for a literal that is
not well formed.  Every step takes at least one character of the text, so the
length of the text is enough steps. -/
def scanString (b : Bytes) : Option (List Char × Bytes) :=
  scanStringAux b.length b

/-- Is `c` JSON white space? -/
def isSpace (c : Char) : Bool :=
  c = ' ' || c.toNat = 9 || c.toNat = 13 || c.toNat = 10

/-- Drop leading white space. -/
def skipWs : Bytes → Bytes
  | [] => []
  | c :: rest => if isSpace c then skipWs rest else c :: rest

/-- Is `c` a decimal digit? -/
def isDigit (c : Char) : Bool := 48 ≤ c.toNat && c.toNat ≤ 57

/-- Drop leading decimal digits. -/
def skipDigits : Bytes → Bytes
  | [] => []
  | c :: rest => if isDigit c then skipDigits rest else c :: rest

/-- One or more decimal digits. -/
def scanDigits1 : Bytes → Option Bytes
  | c :: rest => if isDigit c then some (skipDigits rest) else none
  | [] => none

/-- The fraction and exponent that may follow the integer part of a number. -/
def scanNumberTail (b : Bytes) : Option Bytes :=
  let afterFrac : Option Bytes :=
    match b with
    | '.' :: rest => scanDigits1 rest
    | _ => some b
  match afterFrac with
  | none => none
  | some b1 =>
    match b1 with
    | e :: rest =>
      if e = 'e' ∨ e = 'E' then
        match rest with
        | sg :: rest1 => if sg = '+' ∨ sg = '-' then scanDigits1 rest1 else scanDigits1 rest
        | [] => none
      else some b1
    | [] => some b1

/-- A JSON number: the text after it. -/
def scanNumber (b : Bytes) : Option Bytes :=
  let unsigned : Bytes → Option Bytes := fun u =>
    match u with
    | d :: rest =>
      if d = '0' then scanNumberTail rest
      else if isDigit d then scanNumberTail (skipDigits rest)
      else none
    | [] => none
  match b with
  | '-' :: rest => unsigned rest
  | _ => unsigned b

/-- Read the literal `lit` off the front of the text. -/
def scanLiteral (lit : List Char) (b : Bytes) : Option Bytes :=
  if lit.isPrefixOf b then some (b.drop lit.length) else none

mutual
/-- One JSON value of any kind, checked and passed over: the text after it.
The fuel bounds the number of nested readers; the length of the text is enough. -/
def skipValue : Nat → Bytes → Option Bytes
  | 0, _ => none
  | fuel + 1, b =>
    match b with
    | [] => none
    | c :: rest =>
      if c = '"' then (scanString rest).map (fun r => r.2)
      else if c = '{' then
        match skipWs rest with
        | '}' :: rest1 => some rest1
        | rest1 => skipMembers fuel rest1
      else if c = '[' then
        match skipWs rest with
        | ']' :: rest1 => some rest1
        | rest1 => skipElements fuel rest1
      else if c = 't' then scanLiteral ['r', 'u', 'e'] rest
      else if c = 'f' then scanLiteral ['a', 'l', 's', 'e'] rest
      else if c = 'n' then scanLiteral ['u', 'l', 'l'] rest
      else scanNumber b
/-- The members of an object after its brace, the first one at the front, up
to the closing brace. -/
def skipMembers : Nat → Bytes → Option Bytes
  | 0, _ => none
  | fuel + 1, b =>
    match b with
    | '"' :: rest =>
      match scanString rest with
      | none => none
      | some (_, rest1) =>
        match skipWs rest1 with
        | ':' :: rest2 =>
          match skipValue fuel (skipWs rest2) with
          | none => none
          | some rest3 =>
            match skipWs rest3 with
            | ',' :: rest4 => skipMembers fuel (skipWs rest4)
            | '}' :: rest4 => some rest4
            | _ => none
        | _ => none
    | _ => none
/-- The elements of an array after its bracket, the first one at the front, up
to the closing bracket. -/
def skipElements : Nat → Bytes → Option Bytes
  | 0, _ => none
  | fuel + 1, b =>
    match skipValue fuel b with
    | none => none
    | some rest =>
      match skipWs rest with
      | ',' :: rest1 => skipElements fuel (skipWs rest1)
      | ']' :: rest1 => some rest1
      | _ => none
end

/-- Name folding of `encoding/json`: ASCII letters to upper case, the Kelvin
sign to `K` and the long s to `S`. -/
def foldRune (c : Char) : Char :=
  if 97 ≤ c.toNat ∧ c.toNat ≤ 122 then Char.ofNat (c.toNat - 32)
  else if c.toNat = 8490 then 'K'
  else if c.toNat = 383 then 'S'
  else c

/-- The JSON-named fields of `State`. -/
inductive Field where
  | accessToken
  | refreshToken
deriving DecidableEq, Repr

/-- The field a member key selects: the one with that JSON name, letter case
aside. -/
def fieldOf (key : List Char) : Option Field :=
  if key.map foldRune = "ACCESS_TOKEN".data then some .accessToken
  else if key.map foldRune = "REFRESH_TOKEN".data then some .refreshToken
  else none

/-- Store a decoded string in a field. -/
def State.set (s : State) (f : Field) (v : List Char) : State :=
  match f with
  | .accessToken => { s with AccessToken := String.mk v }
  | .refreshToken => { s with RefreshToken := String.mk v }

/-- The first error wins (`saveError`). -/
def saveError (saved : Option Error) (err : Error) : Option Error :=
  match saved with
  | some e => some e
  | none => some err

/-- Decode the members of the top-level object into `s`, the first member at
the front: a string value is stored in the field its key selects, `null`
leaves the field alone, a value of another kind for a field is a type error
that is saved while decoding goes on; the members of other keys are passed
over.  `none` is a syntax error. -/
def decodeMembers : Nat → State → Option Error → Bytes → Option (State × Option Error × Bytes)
  | 0, _, _, _ => none
  | fuel + 1, s, saved, b =>
    match b with
    | '"' :: rest =>
      match scanString rest with
      | none => none
      | some (key, rest1) =>
        match skipWs rest1 with
        | ':' :: rest2 =>
          let v := skipWs rest2
          let decoded : Option (State × Option Error × Bytes) :=
            match fieldOf key, v with
            | some f, '"' :: vrest =>
              (scanString vrest).map (fun r => (s.set f r.1, saved, r.2))
            | some _, 'n' :: vrest =>
              (scanLiteral ['u', 'l', 'l'] vrest).map (fun r => (s, saved, r))
            | some _, _ =>
              (skipValue (fuel + 1) v).map (fun r =>
                (s, saveError saved "json: cannot unmarshal value into Go struct field of type string", r))
            | none, _ => (skipValue (fuel + 1) v).map (fun r => (s, saved, r))
          match decoded with
          | none => none
          | some (s1, saved1, rest3) =>
            match skipWs rest3 with
            | ',' :: rest4 => decodeMembers fuel s1 saved1 (skipWs rest4)
            | '}' :: rest4 => some (s1, saved1, rest4)
            | _ => none
        | _ => none
    | _ => none

/-- Decode the one top-level value into `s`: an object member by member,
`null` to no effect, a value of another kind is a type error.  `none` is a
syntax error. -/
def decodeValue (fuel : Nat) (s : State) (b : Bytes) : Option (State × Option Error × Bytes) :=
  match b with
  | '{' :: rest =>
    match skipWs rest with
    | '}' :: rest1 => some (s, none, rest1)
    | rest1 => decodeMembers fuel s none rest1
  | 'n' :: rest => (scanLiteral ['u', 'l', 'l'] rest).map (fun r => (s, none, r))
  | _ =>
    (skipValue fuel b).map (fun r =>
      (s, some "json: cannot unmarshal value into Go value of type main.State", r))

/-- Model of `json.Unmarshal(data, s)` for `s *State`: the error returned and
the record afterwards.  The text has to be one JSON value between optional
white space; a text that is not leaves `s` as it was and is a syntax error.
One message stands for every syntax error and one for every type error of the
library, and the library's limit on the depth of nesting is left out. -/
def jsonUnmarshal (data : Bytes) (s : State) : Option Error × State :=
  match decodeValue (data.length + 1) s (skipWs data) with
  | none => (some "json: syntax error", s)
  | some (s1, saved, rest) =>
    match skipWs rest with
    | [] => (saved, s1)
    | _ => (some "json: syntax error", s)

/-- `helix.Game`, the fields the program reads. -/
structure Game where
  ID : String
  Name : String
deriving DecidableEq, Repr

/-- `helix.EditChannelInformationParams`, the fields the program sets. -/
structure EditChannelInformationParams where
  BroadcasterID : String
  GameID : String
  Title : String
deriving DecidableEq, Repr

/-- The data of a `helix.ValidateTokenResponse` the program reads. -/
structure ValidateTokenResponse where
  UserID : String
deriving DecidableEq, Repr

/-- The data of a `helix.RefreshTokenResponse` the program reads. -/
structure RefreshTokenResponse where
  AccessToken : String
  RefreshToken : String
deriving DecidableEq, Repr

/-- The part of `helix.Client` that changes while the program runs: the user
access token set by `SetUserAccessToken` and read by `GetUserAccessToken`. -/
structure Client where
  userAccessToken : String
deriving DecidableEq, Repr

/-- A call made to the outside.  The calls on the remote platform record the
user access token the client holds when the call is made. -/
inductive Event where
  | fetchPlayerStatus
  | validateToken (accessToken : String)
  | refreshUserAccessToken (refreshToken : String)
  | writeFile (data : Bytes)
  | getGames (token : String) (names : List String)
  | editChannelInformation (token : String) (params : EditChannelInformationParams)
deriving DecidableEq, Repr

/-- The answers of the outside during one run of `refresh`. -/
structure Env where
  /-- Outcome of `fetchPlayerStatus()`. -/
  fetchPlayerStatus : Except Error H
  /-- Outcome of `client.ValidateToken(accessToken)`: `isValid` and the response. -/
  validateToken : String → Except Error (Bool × ValidateTokenResponse)
  /-- Outcome of `client.RefreshUserAccessToken(refreshToken)`. -/
  refreshUserAccessToken : String → Except Error RefreshTokenResponse
  /-- Outcome of `os.WriteFile("state.json", data, 0666)`. -/
  writeFile : Bytes → Option Error
  /-- Outcome of `client.GetGames` for the names asked, under the client's token. -/
  getGames : String → List String → Except Error (List Game)
  /-- Outcome of `titleTemplate.Execute(builder, state)`: the text written to
  the builder and the error returned. -/
  titleTemplate : State → String × Option Error
  /-- Outcome of `client.EditChannelInformation(params)`, under the client's token. -/
  editChannelInformation : String → EditChannelInformationParams → Option Error

/-- The mutable world of the program. -/
structure World where
  /-- The package-level variable `state`. -/
  state : State
  /-- The `*helix.Client` handed to `refresh`. -/
  client : Client
  /-- The content of `state.json`, `none` when the file does not exist. -/
  file : Option Bytes
  /-- The calls made so far, oldest first. -/
  trace : List Event
deriving DecidableEq, Repr

/-- Record a call. -/
def World.emit (w : World) (ev : Event) : World :=
  { w with trace := w.trace ++ [ev] }

/-! ## The program -/

/-- Outcome of `os.ReadFile("state.json")`: the content of the file, an error
when there is no file. -/
def osReadFile (file : Option Bytes) : Except Error Bytes :=
  match file with
  | some data => .ok data
  | none => .error "open state.json: no such file or directory"

/-- Embedding of `(s *State) Load()` on the outcome `read` of
`os.ReadFile("state.json")`: the error returned and the record afterwards. -/
def State.Load (s : State) (read : Except Error Bytes) : Option Error × State :=
  match read with
  | .error _ => (none, s)
  | .ok data =>
    match jsonUnmarshal data s with
    | (some err, s1) => (some err, s1)
    | (none, s1) => (none, s1)

/-- Embedding of `(s *State) Save()`: the record is marshalled and the result
written to `state.json`; a write that succeeds replaces the content of the
file, a write that fails is taken to leave it as it was. -/
def State.Save (s : State) (e : Env) (w : World) : Option Error × World :=
  match jsonMarshal s with
  | .error err => (some err, w)
  | .ok data =>
    match e.writeFile data with
    | some err => (some err, w.emit (.writeFile data))
    | none => (none, { w.emit (.writeFile data) with file := some data })

/-- Embedding of `formatTemplate(t, data)`, `t` given by what its execution
writes and returns. -/
def formatTemplate (t : State → String × Option Error) (data : State) : Except Error String :=
  match t data with
  | (_, some err) => .error err
  | (out, none) => .ok out

/-- Embedding of `checkAccessToken(client)`. -/
def checkAccessToken (e : Env) (w : World) : Except Error String × World :=
  let w0 := w.emit (.validateToken w.client.userAccessToken)
  match e.validateToken w.client.userAccessToken with
  | .error err => (.error err, w0)
  | .ok (isValid, validateResp) =>
    if !isValid then
      let w1 := w0.emit (.refreshUserAccessToken w0.state.RefreshToken)
      match e.refreshUserAccessToken w0.state.RefreshToken with
      | .error err => (.error err, w1)
      | .ok resp =>
        let w2 : World :=
          { w1 with state :=
              { w1.state with AccessToken := resp.AccessToken, RefreshToken := resp.RefreshToken } }
        match State.Save w2.state e w2 with
        | (some err, w3) => (.error err, w3)
        | (none, w3) =>
          (.ok validateResp.UserID, { w3 with client := { userAccessToken := w3.state.AccessToken } })
    else (.ok validateResp.UserID, w0)

/-- Embedding of `updateChannelInformation(client, broadcasterID)`. -/
def updateChannelInformation (e : Env) (broadcasterID : String) (w : World) :
    Option Error × World :=
  let w0 := w.emit (.getGames w.client.userAccessToken [w.state.GameName])
  match e.getGames w.client.userAccessToken [w.state.GameName] with
  | .error err => (some err, w0)
  | .ok games =>
    let gameID :=
      match games with
      | g :: _ => g.ID
      | [] => ""
    match formatTemplate e.titleTemplate w0.state with
    | .error err => (some err, w0)
    | .ok title =>
      let params : EditChannelInformationParams :=
        { BroadcasterID := broadcasterID, GameID := gameID, Title := title }
      let w1 := w0.emit (.editChannelInformation w0.client.userAccessToken params)
      match e.editChannelInformation w0.client.userAccessToken params with
      | some err => (some err, w1)
      | none => (none, w1)

/-- Embedding of `refresh(client)`: one poll cycle. -/
def refresh (e : Env) (w : World) : Option Error × World :=
  let w0 := w.emit .fetchPlayerStatus
  match e.fetchPlayerStatus with
  | .error err => (some err, w0)
  | .ok data =>
    let ps := deepGetString data "state"
    if ps = "playing" then
      let gameName := deepGetString data "information.category.meta.album"
      let title := deepGetString data "information.category.meta.title"
      if w0.state.Title = title then (none, w0)
      else
        match checkAccessToken e w0 with
        | (.error err, w1) => (some err, w1)
        | (.ok userID, w1) =>
          let w2 : World := { w1 with state := { w1.state with GameName := gameName, Title := title } }
          match updateChannelInformation e userID w2 with
          | (some err, w3) => (some err, w3)
          | (none, w3) => (none, w3)
    else (none, w0)

/-- The loop of `main`, for the runs whose answers are listed: `refresh` again
and again, every error logged and dropped. -/
def runs : List Env → World → World
  | [], w => w
  | e :: es, w => runs es (refresh e w).2

/-- Is the call an edit of the channel information? -/
def Event.isEdit : Event → Bool
  | .editChannelInformation _ _ => true
  | _ => false

/-- The title a fetched player status carries. -/
def titleOf (data : H) : String :=
  deepGetString data "information.category.meta.title"

/-- The calls one run of `refresh` adds to the trace. -/
def refreshEvents (e : Env) (w : World) : List Event :=
  (refresh e w).2.trace.drop w.trace.length

/-- The calls a sequence of runs adds to the trace. -/
def runsEvents (es : List Env) (w : World) : List Event :=
  (runs es w).trace.drop w.trace.length

/-- The token a call on the remote platform is made under. -/
def Event.token? : Event → Option String
  | .getGames t _ => some t
  | .editChannelInformation t _ => some t
  | _ => none

/-! ## Sample inputs -/

/-- The status of a player that plays the track "Song A" of the album "Game A". -/
def statusSongA : H :=
  [("state", "playing"), ("information.category.meta.album", "Game A"),
    ("information.category.meta.title", "Song A")]

/-- A session authorised earlier that has synchronised nothing yet and has no
state file. -/
def world0 : World :=
  { state := ⟨"old-access", "old-refresh", "", ""⟩, client := ⟨"old-access"⟩,
    file := none, trace := [] }

/-- A run in which the platform holds "old-access" expired and exchanges
"old-refresh" for a new pair owned by the user "42", and every call succeeds. -/
def envExpired : Env where
  fetchPlayerStatus := .ok statusSongA
  validateToken := fun t =>
    if t = "new-access" then .ok (true, ⟨"42"⟩) else .ok (false, ⟨""⟩)
  refreshUserAccessToken := fun r =>
    if r = "old-refresh" then .ok ⟨"new-access", "new-refresh"⟩
    else .error "invalid refresh token"
  writeFile := fun _ => none
  getGames := fun _ names =>
    .ok (if names = ["Game A"] then [⟨"1001", "Game A"⟩, ⟨"1002", "Game A II"⟩] else [])
  titleTemplate := fun s => (s.Title, none)
  editChannelInformation := fun _ _ => none

/-- A run in which every token is valid and owned by the user "42", and every
call succeeds. -/
def envValid : Env :=
  { envExpired with validateToken := fun _ => .ok (true, ⟨"42"⟩) }

/-- A run like `envExpired` in which the refresh token has been revoked. -/
def envRevoked : Env :=
  { envExpired with refreshUserAccessToken := fun _ => .error "invalid refresh token" }

/-- A run like `envValid` in which the player status has no `state` field. -/
def envStopped : Env :=
  { envValid with fetchPlayerStatus := .ok [] }

/-- A run like `envValid` in which the edit of the channel information fails. -/
def envEditFails : Env :=
  { envValid with editChannelInformation := fun _ _ => some "edit failed" }

/-- A run like `envValid` in which the platform knows no game of the name. -/
def envNoGame : Env :=
  { envValid with getGames := fun _ _ => .ok [] }

/-- A hexadecimal digit has the value it was made of. -/
theorem hexVal_hexDigit (k : Nat) (hk : k < 16) : hexVal (hexDigit k) = some k := by
  interval_cases k <;> rfl

/-- The four digits of a code point below `0x10000` have its value. -/
theorem hex4_hexDigit (n : Nat) (hn : n < 65536) :
    hex4 (hexDigit (n / 4096 % 16)) (hexDigit (n / 256 % 16)) (hexDigit (n / 16 % 16))
      (hexDigit (n % 16)) = some n := by
  simp only [hex4]
  rw [hexVal_hexDigit _ (Nat.mod_lt _ (by norm_num)), hexVal_hexDigit _ (Nat.mod_lt _ (by norm_num)),
    hexVal_hexDigit _ (Nat.mod_lt _ (by norm_num)), hexVal_hexDigit _ (Nat.mod_lt _ (by norm_num))]
  simp only [Option.some.injEq]
  omega

/-- One step of `scanRune` on a `\u` escape of a code point that is no
surrogate. -/
theorem scanRune_u (a b x y : Char) (n : Nat) (tail : Bytes) (h : hex4 a b x y = some n)
    (hn : n < 55296) :
    scanRune ('\\' :: 'u' :: a :: b :: x :: y :: tail) = some (some (Char.ofNat n), tail) := by
  have hs : isSurrogate n = false := by
    simp only [isSurrogate, Bool.and_eq_false_imp, decide_eq_true_eq, decide_eq_false_iff_not]
    omega
  show (match hex4 a b x y with
    | none => none
    | some n => if isSurrogate n = true then _ else some (some (Char.ofNat n), tail)) = _
  rw [h]
  simp only [hs, Bool.false_eq_true, if_false]

/-- A `\\u` escape written by `escapeU` reads as its code point. -/
theorem scanRune_escapeU (n : Nat) (hn : n < 55296) (tail : Bytes) :
    scanRune (escapeU n ++ tail) = some (some (Char.ofNat n), tail) :=
  scanRune_u _ _ _ _ n tail (hex4_hexDigit n (by omega)) hn

/-- A character that is written as it is reads as itself. -/
theorem scanRune_plain (c : Char) (tail : Bytes) (h1 : c ≠ '"') (h2 : c ≠ '\\')
    (h3 : ¬ c.toNat < 32) : scanRune (c :: tail) = some (some c, tail) := by
  show (if c = '"' then _ else if c = '\\' then _ else if c.toNat < 32 then _ else _) = _
  rw [if_neg h1, if_neg h2, if_neg h3]

/-- What `json.Marshal` writes for a character reads as that character. -/
theorem scanRune_escapeChar (c : Char) (tail : Bytes) :
    scanRune (escapeChar c ++ tail) = some (some c, tail) := by
  by_cases h1 : c = '"'
  · subst h1; rfl
  by_cases h2 : c = '\\'
  · subst h2; rfl
  by_cases h3 : c.toNat = 8
  · rw [show escapeChar c = ['\\', 'b'] by simp only [escapeChar, if_neg h1, if_neg h2, if_pos h3],
      ← Char.ofNat_toNat c, h3]
    rfl
  by_cases h4 : c.toNat = 12
  · rw [show escapeChar c = ['\\', 'f'] by
        simp only [escapeChar, if_neg h1, if_neg h2, if_neg h3, if_pos h4],
      ← Char.ofNat_toNat c, h4]
    rfl
  by_cases h5 : c.toNat = 10
  · rw [show escapeChar c = ['\\', 'n'] by
        simp only [escapeChar, if_neg h1, if_neg h2, if_neg h3, if_neg h4, if_pos h5],
      ← Char.ofNat_toNat c, h5]
    rfl
  by_cases h6 : c.toNat = 13
  · rw [show escapeChar c = ['\\', 'r'] by
        simp only [escapeChar, if_neg h1, if_neg h2, if_neg h3, if_neg h4, if_neg h5, if_pos h6],
      ← Char.ofNat_toNat c, h6]
    rfl
  by_cases h7 : c.toNat = 9
  · rw [show escapeChar c = ['\\', 't'] by
        simp only [escapeChar, if_neg h1, if_neg h2, if_neg h3, if_neg h4, if_neg h5, if_neg h6,
          if_pos h7],
      ← Char.ofNat_toNat c, h7]
    rfl
  by_cases h8 : c.toNat < 32
  · rw [show escapeChar c = escapeU c.toNat by
        simp only [escapeChar, if_neg h1, if_neg h2, if_neg h3, if_neg h4, if_neg h5, if_neg h6,
          if_neg h7, if_pos h8],
      scanRune_escapeU _ (by omega), Char.ofNat_toNat]
  by_cases h9 : c = '<'
  · subst h9; exact scanRune_escapeU 60 (by norm_num) tail
  by_cases h10 : c = '>'
  · subst h10; exact scanRune_escapeU 62 (by norm_num) tail
  by_cases h11 : c = '&'
  · subst h11; exact scanRune_escapeU 38 (by norm_num) tail
  by_cases h12 : c.toNat = 8232
  · rw [show escapeChar c = escapeU 8232 by
        simp only [escapeChar, if_neg h1, if_neg h2, if_neg h3, if_neg h4, if_neg h5, if_neg h6,
          if_neg h7, if_neg h8, if_neg h9, if_neg h10, if_neg h11, if_pos h12],
      scanRune_escapeU _ (by norm_num), ← h12, Char.ofNat_toNat]
  by_cases h13 : c.toNat = 8233
  · rw [show escapeChar c = escapeU 8233 by
        simp only [escapeChar, if_neg h1, if_neg h2, if_neg h3, if_neg h4, if_neg h5, if_neg h6,
          if_neg h7, if_neg h8, if_neg h9, if_neg h10, if_neg h11, if_neg h12, if_pos h13],
      scanRune_escapeU _ (by norm_num), ← h13, Char.ofNat_toNat]
  rw [show escapeChar c = [c] by
    simp only [escapeChar, if_neg h1, if_neg h2, if_neg h3, if_neg h4, if_neg h5, if_neg h6,
      if_neg h7, if_neg h8, if_neg h9, if_neg h10, if_neg h11, if_neg h12, if_neg h13]]
  exact scanRune_plain c tail h1 h2 h8

/-- The length of the escaped body is at least the length of the string. -/
theorem length_escape (cs : List Char) : cs.length ≤ (escape cs).length := by
  induction cs with
  | nil => simp [escape]
  | cons c cs ih =>
    have h : 1 ≤ (escapeChar c).length := by
      have hr := scanRune_escapeChar c []
      cases he : escapeChar c with
      | nil =>
        rw [he] at hr
        exact absurd hr (by simp [scanRune])
      | cons d ds => simp
    simp only [escape, List.length_append, List.length_cons]
    omega

/-- The escaped body of a string, closed by a quote, reads as the string. -/
theorem scanStringAux_escape (cs : List Char) (tail : Bytes) (fuel : Nat)
    (hfuel : cs.length < fuel) :
    scanStringAux fuel (escape cs ++ '"' :: tail) = some (cs, tail) := by
  induction cs generalizing fuel with
  | nil =>
    obtain ⟨k, rfl⟩ : ∃ k, fuel = k + 1 := ⟨fuel - 1, by simp at hfuel; omega⟩
    rfl
  | cons c cs ih =>
    obtain ⟨k, rfl⟩ : ∃ k, fuel = k + 1 := ⟨fuel - 1, by omega⟩
    simp only [escape, List.append_assoc, scanStringAux, scanRune_escapeChar]
    rw [ih k (by simpa using hfuel)]
    rfl

/-- A quoted string, read behind its opening quote, is the string. -/
theorem scanString_escape (cs : List Char) (tail : Bytes) :
    scanString (escape cs ++ '"' :: tail) = some (cs, tail) := by
  apply scanStringAux_escape
  have := length_escape cs
  simp only [List.length_append, List.length_cons]
  omega

/-- White space is dropped up to a character that is none. -/
theorem skipWs_cons (c : Char) (rest : Bytes) (h : isSpace c = false) :
    skipWs (c :: rest) = c :: rest := by
  rw [skipWs, h]
  rfl

/-- A member with a string value for a field, followed by a further member. -/
theorem decodeMembers_next (fuel : Nat) (s : State) (saved : Option Error) (key v : List Char)
    (f : Field) (more : Bytes) (hkey : fieldOf key = some f) :
    decodeMembers (fuel + 1) s saved
        ('"' :: (escape key ++ '"' :: ':' :: '"' :: (escape v ++ '"' :: ',' :: '"' :: more)))
      = decodeMembers fuel (s.set f v) saved ('"' :: more) := by
  rw [decodeMembers, scanString_escape]
  simp only [skipWs_cons ':' _ rfl, skipWs_cons '"' _ rfl, hkey, scanString_escape, Option.map_some',
    skipWs_cons ',' _ rfl]

/-- A member with a string value for a field, the last of the object. -/
theorem decodeMembers_last (fuel : Nat) (s : State) (saved : Option Error) (key v : List Char)
    (f : Field) (rest : Bytes) (hkey : fieldOf key = some f) :
    decodeMembers (fuel + 1) s saved
        ('"' :: (escape key ++ '"' :: ':' :: '"' :: (escape v ++ '"' :: '}' :: rest)))
      = some (s.set f v, saved, rest) := by
  rw [decodeMembers, scanString_escape]
  simp only [skipWs_cons ':' _ rfl, skipWs_cons '"' _ rfl, hkey, scanString_escape, Option.map_some',
    skipWs_cons '}' _ rfl]

/-- An object whose first member follows the brace at once. -/
theorem decodeValue_object (fuel : Nat) (s : State) (rest : Bytes) :
    decodeValue fuel s ('{' :: '"' :: rest) = decodeMembers fuel s none ('"' :: rest) :=
  rfl

/-- What `json.Marshal` writes for a `State`, `json.Unmarshal` reads back into
any record: no error, the two named fields are those written, the other fields
are left as they are. -/
theorem jsonUnmarshal_jsonMarshal (s s0 : State) (data : Bytes) (h : jsonMarshal s = .ok data) :
    jsonUnmarshal data s0
      = (none, { s0 with AccessToken := s.AccessToken, RefreshToken := s.RefreshToken }) := by
  have hd : data = '{' :: '"' :: (escape "access_token".data ++ '"' :: ':' :: '"' ::
      (escape s.AccessToken.data ++ '"' :: ',' :: '"' :: (escape "refresh_token".data
        ++ '"' :: ':' :: '"' :: (escape s.RefreshToken.data ++ '"' :: '}' :: [])))) := by
    simp only [jsonMarshal, Except.ok.injEq] at h
    rw [← h]
    simp only [jsonQuote, show escape "access_token".data = "access_token".data from by decide,
      show escape "refresh_token".data = "refresh_token".data from by decide]
    simp
  obtain ⟨k, hk⟩ : ∃ k, data.length + 1 = k + 2 := ⟨data.length - 1, by rw [hd]; simp⟩
  unfold jsonUnmarshal
  rw [hk, hd, skipWs_cons '{' _ rfl, decodeValue_object,
    show "access_token".data = ['a', 'c', 'c', 'e', 's', 's', '_', 't', 'o', 'k', 'e', 'n'] from rfl,
    show "refresh_token".data = ['r', 'e', 'f', 'r', 'e', 's', 'h', '_', 't', 'o', 'k', 'e', 'n']
      from rfl,
    decodeMembers_next _ _ _ _ _ Field.accessToken _ (by decide),
    decodeMembers_last _ _ _ _ _ Field.refreshToken _ (by decide)]
  rfl

/-! ### The poll cycle: auxiliary facts -/

/-- Marshalling a `State` has a result. -/
theorem jsonMarshal_ok (s : State) : ∃ data, jsonMarshal s = .ok data :=
  ⟨_, rfl⟩

/-- The run of `updateChannelInformation` when the lookup and the render
succeed: the lookup, then the edit with the identifier of the first game found
(the empty string when none is found); the result is the result of the edit. -/
theorem updateChannelInformation_ok (e : Env) (b : String) (w : World) (games : List Game)
    (out : String)
    (hg : e.getGames w.client.userAccessToken [w.state.GameName] = .ok games)
    (hx : e.titleTemplate w.state = (out, none)) :
    updateChannelInformation e b w =
      (e.editChannelInformation w.client.userAccessToken
          ⟨b, (games.head?.map Game.ID).getD "", out⟩,
        { w with trace := w.trace ++ [Event.getGames w.client.userAccessToken [w.state.GameName],
            Event.editChannelInformation w.client.userAccessToken
              ⟨b, (games.head?.map Game.ID).getD "", out⟩] }) := by
  simp only [updateChannelInformation, hg, formatTemplate, World.emit, hx]
  cases games with
  | nil =>
    simp only [List.head?_nil, Option.map_none', Option.getD_none]
    cases e.editChannelInformation w.client.userAccessToken ⟨b, "", out⟩ <;> simp
  | cons g gs =>
    simp only [List.head?_cons, Option.map_some', Option.getD_some]
    cases e.editChannelInformation w.client.userAccessToken ⟨b, g.ID, out⟩ <;> simp

/-- What `updateChannelInformation` leaves alone, and its first call: `state`,
the client and the file are as before, and the calls added start with the
lookup of the one name `state.GameName`. -/
theorem updateChannelInformation_frame (e : Env) (b : String) (w : World) :
    (updateChannelInformation e b w).2.state = w.state
      ∧ (updateChannelInformation e b w).2.client = w.client
      ∧ (updateChannelInformation e b w).2.file = w.file
      ∧ ∃ rest, (updateChannelInformation e b w).2.trace
          = w.trace ++ Event.getGames w.client.userAccessToken [w.state.GameName] :: rest := by
  unfold updateChannelInformation
  cases hg : e.getGames w.client.userAccessToken [w.state.GameName] with
  | error err => simp [World.emit]
  | ok games =>
    simp only [World.emit, formatTemplate]
    rcases ht : e.titleTemplate w.state with ⟨out, _ | terr⟩
    · simp only []
      cases e.editChannelInformation w.client.userAccessToken _ <;> simp
    · simp

/-- The shape of `refresh` on a playing status with a new title: the token
check, then the assignment of the fetched album and title to `state`, then the
update. -/
theorem refresh_playing_new (e : Env) (w : World) (data : H)
    (hf : e.fetchPlayerStatus = .ok data) (hp : deepGetString data "state" = "playing")
    (ht : w.state.Title ≠ titleOf data) :
    refresh e w =
      match checkAccessToken e (w.emit .fetchPlayerStatus) with
      | (.error err, w1) => (some err, w1)
      | (.ok userID, w1) =>
        updateChannelInformation e userID
          { w1 with state := { w1.state with
              GameName := deepGetString data "information.category.meta.album",
              Title := titleOf data } } := by
  simp only [titleOf] at ht ⊢
  simp only [refresh, hf, hp, World.emit, if_true, if_neg ht]
  rcases checkAccessToken e _ with ⟨_ | uid, w1⟩
  · rfl
  · simp only []
    rcases updateChannelInformation e uid _ with ⟨_ | err, w3⟩ <;> rfl

/-- What `checkAccessToken` leaves alone, and its first call: the title and the
game name of `state` are as before, and the calls added start with the
validation of the token the client holds. -/
theorem checkAccessToken_frame (e : Env) (w : World) :
    (checkAccessToken e w).2.state.Title = w.state.Title
      ∧ (checkAccessToken e w).2.state.GameName = w.state.GameName
      ∧ ∃ rest, (checkAccessToken e w).2.trace
          = w.trace ++ Event.validateToken w.client.userAccessToken :: rest := by
  unfold checkAccessToken
  rcases hv : e.validateToken w.client.userAccessToken with err | ⟨isValid, vr⟩
  · simp [World.emit]
  · cases isValid
    · simp only [World.emit, Bool.not_false, if_true]
      cases hr : e.refreshUserAccessToken w.state.RefreshToken with
      | error err => simp
      | ok resp =>
        simp only [State.Save, jsonMarshal, World.emit]
        cases e.writeFile _ <;> simp
    · simp [World.emit]

/-- A run on a playing status with a new title starts with the fetch and the
validation of the token the client holds. -/
theorem refreshEvents_playing_new (e : Env) (w : World) (data : H)
    (hf : e.fetchPlayerStatus = .ok data) (hp : deepGetString data "state" = "playing")
    (ht : w.state.Title ≠ titleOf data) :
    ∃ rest, refreshEvents e w
      = Event.fetchPlayerStatus :: Event.validateToken w.client.userAccessToken :: rest := by
  rw [refreshEvents, refresh_playing_new e w data hf hp ht]
  obtain ⟨-, -, rest, hc⟩ := checkAccessToken_frame e (w.emit .fetchPlayerStatus)
  rcases hck : checkAccessToken e (w.emit .fetchPlayerStatus) with ⟨err | uid, w1⟩
  · rw [hck] at hc
    simp only [World.emit] at hc
    simp [hc]
  · rw [hck] at hc
    simp only [World.emit] at hc
    obtain ⟨-, -, -, rest2, hu⟩ := updateChannelInformation_frame e uid
      { w1 with state := { w1.state with
          GameName := deepGetString data "information.category.meta.album",
          Title := titleOf data } }
    simp only []
    rw [hu]
    exact ⟨rest ++ Event.getGames w1.client.userAccessToken
      [deepGetString data "information.category.meta.album"] :: rest2, by simp [hc]⟩

/-- A run whose fetch fails, or whose status is not playing, or whose title is
the one in `state`, does nothing but the fetch. -/
theorem refresh_idle (e : Env) (w : World)
    (h : (∃ err, e.fetchPlayerStatus = .error err)
      ∨ ∃ data, e.fetchPlayerStatus = .ok data
          ∧ (deepGetString data "state" ≠ "playing" ∨ w.state.Title = titleOf data)) :
    (refresh e w).2 = w.emit .fetchPlayerStatus := by
  rcases h with ⟨err, hf⟩ | ⟨data, hf, hs | ht⟩
  · simp [refresh, hf]
  · simp [refresh, hf, hs]
  · simp only [titleOf] at ht
    by_cases hp : deepGetString data "state" = "playing"
    · simp [refresh, hf, hp, World.emit, ht]
    · simp [refresh, hf, hp]

/-- Every run is of one of two kinds: idle, or on a playing status with a new
title. -/
theorem refresh_kind (e : Env) (w : World) :
    ((∃ err, e.fetchPlayerStatus = .error err)
      ∨ ∃ data, e.fetchPlayerStatus = .ok data
          ∧ (deepGetString data "state" ≠ "playing" ∨ w.state.Title = titleOf data))
    ∨ ∃ data, e.fetchPlayerStatus = .ok data ∧ deepGetString data "state" = "playing"
        ∧ w.state.Title ≠ titleOf data := by
  cases hf : e.fetchPlayerStatus with
  | error err => exact Or.inl (Or.inl ⟨err, rfl⟩)
  | ok data =>
    by_cases hp : deepGetString data "state" = "playing"
    · by_cases ht : w.state.Title = titleOf data
      · exact Or.inl (Or.inr ⟨data, rfl, Or.inr ht⟩)
      · exact Or.inr ⟨data, rfl, hp, ht⟩
    · exact Or.inl (Or.inr ⟨data, rfl, Or.inl hp⟩)

/-- The calls of `checkAccessToken`: none is a lookup or an edit, the
validation of the client's token is among them, and a result without error
means that the token was reported valid and the client is as before, or that
it was reported invalid, the exchange of the refresh token was made and
succeeded, and the client holds the access token the exchange returned. -/
theorem checkAccessToken_gating (e : Env) (w : World) :
    ∃ d, (checkAccessToken e w).2.trace = w.trace ++ d
      ∧ (∀ x ∈ d, x.token? = none)
      ∧ Event.validateToken w.client.userAccessToken ∈ d
      ∧ ∀ uid, (checkAccessToken e w).1 = .ok uid →
          (∃ vr, e.validateToken w.client.userAccessToken = .ok (true, vr)
              ∧ (checkAccessToken e w).2.client = w.client)
          ∨ (∃ vr resp, e.validateToken w.client.userAccessToken = .ok (false, vr)
              ∧ e.refreshUserAccessToken w.state.RefreshToken = .ok resp
              ∧ Event.refreshUserAccessToken w.state.RefreshToken ∈ d
              ∧ (checkAccessToken e w).2.client.userAccessToken = resp.AccessToken) := by
  unfold checkAccessToken
  rcases hv : e.validateToken w.client.userAccessToken with err | ⟨isValid, vr⟩
  · exact ⟨[Event.validateToken w.client.userAccessToken], by simp [World.emit],
      by simp [Event.token?], by simp, by simp⟩
  · cases isValid
    · simp only [World.emit, Bool.not_false, if_true]
      cases hr : e.refreshUserAccessToken w.state.RefreshToken with
      | error err =>
        exact ⟨[Event.validateToken w.client.userAccessToken,
          Event.refreshUserAccessToken w.state.RefreshToken], by simp,
          by simp [Event.token?], by simp, by simp⟩
      | ok resp =>
        obtain ⟨saved, hm⟩ := jsonMarshal_ok
          { w.state with AccessToken := resp.AccessToken, RefreshToken := resp.RefreshToken }
        simp only [State.Save, hm, World.emit]
        cases hw : e.writeFile saved with
        | some err =>
          exact ⟨[Event.validateToken w.client.userAccessToken,
            Event.refreshUserAccessToken w.state.RefreshToken, Event.writeFile saved], by simp,
            by simp [Event.token?], by simp, by simp⟩
        | none =>
          exact ⟨[Event.validateToken w.client.userAccessToken,
            Event.refreshUserAccessToken w.state.RefreshToken, Event.writeFile saved], by simp,
            by simp [Event.token?], by simp, by simp⟩
    · exact ⟨[Event.validateToken w.client.userAccessToken], by simp [World.emit],
        by simp [Event.token?], by simp, by simp [World.emit]⟩

/-- The calls of `updateChannelInformation`: each is made under the token the
client holds, a lookup asks for the one name `state.GameName`, and there is at
most one edit. -/
theorem updateChannelInformation_events (e : Env) (b : String) (w : World) :
    ∃ d, (updateChannelInformation e b w).2.trace = w.trace ++ d
      ∧ (∀ x ∈ d, x.token? = some w.client.userAccessToken
          ∧ ∀ t names, x = Event.getGames t names → names = [w.state.GameName])
      ∧ d.countP Event.isEdit ≤ 1 := by
  unfold updateChannelInformation
  cases hg : e.getGames w.client.userAccessToken [w.state.GameName] with
  | error err =>
    exact ⟨[Event.getGames w.client.userAccessToken [w.state.GameName]],
      by simp [World.emit], by simp [Event.token?], by simp [List.countP_cons, Event.isEdit]⟩
  | ok games =>
    rcases ht : e.titleTemplate w.state with ⟨out, _ | terr⟩
    · rw [← hg, ← updateChannelInformation.eq_1, updateChannelInformation_ok e b w games out hg ht]
      exact ⟨_, rfl, by simp [Event.token?], by simp [List.countP_cons, Event.isEdit]⟩
    · simp only [World.emit, formatTemplate, ht]
      exact ⟨[Event.getGames w.client.userAccessToken [w.state.GameName]],
        by simp, by simp [Event.token?], by simp [List.countP_cons, Event.isEdit]⟩

/-- The calls of one run, in two parts: first the fetch and the calls of the
token check, none of them a lookup or an edit; then the calls of the update,
each made under a token that the validation of this run reported valid or that
a successful exchange of this run returned, the lookup asking for the fetched
album alone, with at most one edit. -/
theorem refreshEvents_parts (e : Env) (w : World) :
    ∃ l1 l2, refreshEvents e w = l1 ++ l2
      ∧ (∀ x ∈ l1, x.token? = none)
      ∧ l2.countP Event.isEdit ≤ 1
      ∧ ∀ x ∈ l2, Event.validateToken w.client.userAccessToken ∈ l1
          ∧ (∃ t, x.token? = some t
            ∧ ((∃ vr, e.validateToken w.client.userAccessToken = .ok (true, vr)
                  ∧ t = w.client.userAccessToken)
              ∨ (∃ vr resp, e.validateToken w.client.userAccessToken = .ok (false, vr)
                  ∧ e.refreshUserAccessToken w.state.RefreshToken = .ok resp
                  ∧ Event.refreshUserAccessToken w.state.RefreshToken ∈ l1
                  ∧ t = resp.AccessToken)))
          ∧ (∃ data, e.fetchPlayerStatus = .ok data
              ∧ deepGetString data "state" = "playing" ∧ w.state.Title ≠ titleOf data
              ∧ ∀ t names, x = Event.getGames t names
                  → names = [deepGetString data "information.category.meta.album"]) := by
  rcases refresh_kind e w with hidle | ⟨data, hf, hp, ht⟩
  · exact ⟨[Event.fetchPlayerStatus], [],
      by simp [refreshEvents, refresh_idle e w hidle, World.emit],
      by simp [Event.token?], by simp, by simp⟩
  · obtain ⟨d, hd, hnone, hval, hres⟩ := checkAccessToken_gating e (w.emit .fetchPlayerStatus)
    rw [refreshEvents, refresh_playing_new e w data hf hp ht]
    rcases hck : checkAccessToken e (w.emit .fetchPlayerStatus) with ⟨err | uid, w1⟩
    · rw [hck] at hd
      simp only [World.emit] at hd
      refine ⟨Event.fetchPlayerStatus :: d, [], by simp [hd], ?_, by simp, by simp⟩
      intro x hx
      rcases List.mem_cons.mp hx with rfl | hx
      · rfl
      · exact hnone x hx
    · rw [hck] at hd
      have hres := hres uid (by rw [hck])
      rw [hck] at hres
      simp only [World.emit] at hd hval hres
      obtain ⟨d2, hd2, htok, hcount⟩ := updateChannelInformation_events e uid
        { w1 with state := { w1.state with
            GameName := deepGetString data "information.category.meta.album",
            Title := titleOf data } }
      simp only []
      rw [hd2]
      refine ⟨Event.fetchPlayerStatus :: d, d2, by simp [hd], ?_, hcount, ?_⟩
      · intro x hx
        rcases List.mem_cons.mp hx with rfl | hx
        · rfl
        · exact hnone x hx
      · intro x hx
        obtain ⟨hxt, hxn⟩ := htok x hx
        refine ⟨List.mem_cons_of_mem _ hval, ⟨w1.client.userAccessToken, hxt, ?_⟩,
          ⟨data, hf, hp, ht, hxn⟩⟩
        rcases hres with ⟨vr, hv, hc⟩ | ⟨vr, resp, hv, hr, hmem, hc⟩
        · exact Or.inl ⟨vr, hv, by rw [hc]⟩
        · exact Or.inr ⟨vr, resp, hv, hr, List.mem_cons_of_mem _ hmem, hc⟩

/-- A call that is made under no token is not an edit. -/
theorem isEdit_of_token_none (x : Event) (h : x.token? = none) : x.isEdit = false := by
  cases x <;> simp_all [Event.token?, Event.isEdit]

/-- No edit among calls that are made under no token. -/
theorem countP_isEdit_of_token_none (l : List Event) (h : ∀ x ∈ l, x.token? = none) :
    l.countP Event.isEdit = 0 := by
  rw [List.countP_eq_zero]
  intro x hx
  simp [isEdit_of_token_none x (h x hx)]

/-- The trace only grows in a run, and a run that issues an edit leaves the
fetched title in `state.Title`. -/
theorem refresh_trace_title (e : Env) (w : World) :
    (refresh e w).2.trace = w.trace ++ refreshEvents e w
      ∧ ((refreshEvents e w).countP Event.isEdit ≠ 0 →
          ∃ data, e.fetchPlayerStatus = .ok data
            ∧ (refresh e w).2.state.Title = titleOf data) := by
  rcases refresh_kind e w with hidle | ⟨data, hf, hp, ht⟩
  · simp [refreshEvents, refresh_idle e w hidle, World.emit, List.countP_cons, Event.isEdit]
  · obtain ⟨d, hd, hnone, -, -⟩ := checkAccessToken_gating e (w.emit .fetchPlayerStatus)
    rw [refreshEvents, refresh_playing_new e w data hf hp ht]
    rcases hck : checkAccessToken e (w.emit .fetchPlayerStatus) with ⟨err | uid, w1⟩
    · rw [hck] at hd
      simp only [World.emit] at hd
      simp only [hd, List.append_assoc, List.drop_left, List.singleton_append, true_and]
      intro hne
      exact absurd (countP_isEdit_of_token_none (Event.fetchPlayerStatus :: d) (by
        intro x hx
        rcases List.mem_cons.mp hx with rfl | hx
        · rfl
        · exact hnone x hx)) hne
    · rw [hck] at hd
      simp only [World.emit] at hd
      obtain ⟨hst, -, -, rest, hu⟩ := updateChannelInformation_frame e uid
        { w1 with state := { w1.state with
            GameName := deepGetString data "information.category.meta.album",
            Title := titleOf data } }
      simp only []
      rw [hu, hst]
      simp only [hd, List.append_assoc, List.drop_left, true_and]
      intro _
      exact ⟨data, hf, rfl⟩

/-- The calls of a sequence of runs: those of the first run, then those of the
runs that follow. -/
theorem runs_trace (es : List Env) (w : World) :
    (runs es w).trace = w.trace ++ runsEvents es w := by
  induction es generalizing w with
  | nil => simp [runs, runsEvents]
  | cons e es ih =>
    have h1 := (refresh_trace_title e w).1
    have h2 := ih (refresh e w).2
    simp only [runsEvents, runs] at h2 ⊢
    rw [h2, h1]
    simp

/-- The calls of a run followed by further runs. -/
theorem runsEvents_cons (e : Env) (es : List Env) (w : World) :
    runsEvents (e :: es) w = refreshEvents e w ++ runsEvents es (refresh e w).2 := by
  have h1 := (refresh_trace_title e w).1
  have h2 := runs_trace es (refresh e w).2
  simp only [runsEvents, runs] at h2 ⊢
  rw [h2, h1]
  simp

/-- The count of edits over runs that all fetch the title `t`: none once
`state.Title` is `t`, at most one otherwise. -/
theorem runs_edit_count (t : String) (es : List Env) :
    (∀ e ∈ es, ∀ data, e.fetchPlayerStatus = .ok data → titleOf data = t) →
    ∀ w : World, (w.state.Title = t → (runsEvents es w).countP Event.isEdit = 0)
      ∧ (runsEvents es w).countP Event.isEdit ≤ 1 := by
  induction es with
  | nil => intro _ w; simp [runsEvents, runs]
  | cons e es ih =>
    intro h w
    have he : ∀ data, e.fetchPlayerStatus = .ok data → titleOf data = t :=
      h e (List.mem_cons_self _ _)
    have ih := ih (fun e1 h1 => h e1 (List.mem_cons_of_mem _ h1)) (refresh e w).2
    rw [runsEvents_cons, List.countP_append]
    obtain ⟨l1, l2, hparts, hnone, hcount, hl2⟩ := refreshEvents_parts e w
    have hle : (refreshEvents e w).countP Event.isEdit ≤ 1 := by
      rw [hparts, List.countP_append, countP_isEdit_of_token_none l1 hnone]
      simpa using hcount
    constructor
    · intro hw
      have hidle : (refresh e w).2 = w.emit .fetchPlayerStatus := by
        apply refresh_idle
        cases hf : e.fetchPlayerStatus with
        | error err => exact Or.inl ⟨err, rfl⟩
        | ok data => exact Or.inr ⟨data, rfl, Or.inr (by rw [hw, he data hf])⟩
      have h0 : (refreshEvents e w).countP Event.isEdit = 0 := by
        simp [refreshEvents, hidle, World.emit, List.countP_cons, Event.isEdit]
      have h1 := ih.1 (by rw [hidle]; exact hw)
      omega
    · by_cases h0 : (refreshEvents e w).countP Event.isEdit = 0
      · have := ih.2
        omega
      · obtain ⟨data, hf, hst⟩ := (refresh_trace_title e w).2 h0
        have h1 := ih.1 (by rw [hst, he data hf])
        omega

/-- A run that fetches a status whose title is the one in `state` returns nil
after the fetch alone, playing or not. -/
theorem refresh_same_title (e : Env) (w : World) (data : H)
    (hf : e.fetchPlayerStatus = .ok data) (ht : titleOf data = w.state.Title) :
    refresh e w = (none, w.emit .fetchPlayerStatus) := by
  simp only [titleOf] at ht
  by_cases hp : deepGetString data "state" = "playing"
  · simp [refresh, hf, hp, World.emit, ht]
  · simp [refresh, hf, hp]

/-- The user identifier `checkAccessToken` returns is the one in the response
to the validation of the token the client held when it was called, on the path
that refreshes the token as on the other. -/
theorem checkAccessToken_userID (e : Env) (w : World) (uid : String)
    (h : (checkAccessToken e w).1 = .ok uid) :
    ∃ isValid vr, e.validateToken w.client.userAccessToken = .ok (isValid, vr)
      ∧ uid = vr.UserID := by
  unfold checkAccessToken at h
  rcases hv : e.validateToken w.client.userAccessToken with err | ⟨isValid, vr⟩
  · rw [hv] at h
    simp at h
  · refine ⟨isValid, vr, rfl, ?_⟩
    rw [hv] at h
    cases isValid
    · simp only [World.emit, Bool.not_false, if_true] at h
      cases hr : e.refreshUserAccessToken w.state.RefreshToken with
      | error err =>
        rw [hr] at h
        simp at h
      | ok resp =>
        obtain ⟨saved, hm⟩ := jsonMarshal_ok
          { w.state with AccessToken := resp.AccessToken, RefreshToken := resp.RefreshToken }
        rw [hr] at h
        simp only [State.Save, hm, World.emit] at h
        cases hw : e.writeFile saved with
        | some err =>
          rw [hw] at h
          simp at h
        | none =>
          rw [hw] at h
          simp only [Except.ok.injEq] at h
          exact h.symm
    · simp only [Bool.not_true, Bool.false_eq_true, if_false, Except.ok.injEq] at h
      exact h.symm

/-- An edit issued by `updateChannelInformation` carries the broadcaster
identifier it was called with. -/
theorem updateChannelInformation_broadcaster (e : Env) (b : String) (w : World) (t : String)
    (p : EditChannelInformationParams)
    (h : Event.editChannelInformation t p
      ∈ (updateChannelInformation e b w).2.trace.drop w.trace.length) :
    p.BroadcasterID = b := by
  cases hg : e.getGames w.client.userAccessToken [w.state.GameName] with
  | error err =>
    simp [updateChannelInformation, hg, World.emit] at h
  | ok games =>
    rcases ht : e.titleTemplate w.state with ⟨out, _ | terr⟩
    · rw [updateChannelInformation_ok e b w games out hg ht] at h
      simp only [List.drop_left, List.mem_cons, List.mem_singleton, Event.editChannelInformation.injEq,
        List.not_mem_nil, or_false, false_or, reduceCtorEq] at h
      rw [h.2]
    · simp [updateChannelInformation, hg, formatTemplate, ht, World.emit] at h

/-- In every run, an edit carries as `BroadcasterID` the user identifier found
in the response to the validation of the token the client held at the start of
the run, whether that validation reported the token valid or not. -/
theorem edit_broadcaster (e : Env) (w : World) (t : String) (p : EditChannelInformationParams)
    (h : Event.editChannelInformation t p ∈ refreshEvents e w) :
    ∃ isValid vr, e.validateToken w.client.userAccessToken = .ok (isValid, vr)
      ∧ p.BroadcasterID = vr.UserID := by
  rcases refresh_kind e w with hidle | ⟨data, hf, hp, ht⟩
  · simp [refreshEvents, refresh_idle e w hidle, World.emit] at h
  · obtain ⟨d, hd, hnone, -, -⟩ := checkAccessToken_gating e (w.emit .fetchPlayerStatus)
    rw [refreshEvents, refresh_playing_new e w data hf hp ht] at h
    rcases hck : checkAccessToken e (w.emit .fetchPlayerStatus) with ⟨err | uid, w1⟩
    · rw [hck] at hd h
      simp only [World.emit] at hd
      simp only [hd, List.append_assoc, List.drop_left, List.singleton_append, List.mem_cons,
        reduceCtorEq, false_or] at h
      have := hnone _ h
      simp [Event.token?] at this
    · have huid := checkAccessToken_userID e (w.emit .fetchPlayerStatus) uid (by rw [hck])
      rw [hck] at hd h
      simp only [World.emit] at hd huid
      obtain ⟨d2, hd2, -, -⟩ := updateChannelInformation_events e uid
        { w1 with state := { w1.state with
            GameName := deepGetString data "information.category.meta.album",
            Title := titleOf data } }
      have hb := updateChannelInformation_broadcaster e uid
        { w1 with state := { w1.state with
            GameName := deepGetString data "information.category.meta.album",
            Title := titleOf data } } t p
      simp only [] at h hb
      rw [hd2] at h hb
      simp only [hd, List.append_assoc, List.drop_left, List.singleton_append, List.mem_cons,
        reduceCtorEq, false_or, List.mem_append] at h
      rcases h with h | h
      · have := hnone _ h
        simp [Event.token?] at this
      · obtain ⟨isValid, vr, hv, hu⟩ := huid
        exact ⟨isValid, vr, hv, by rw [hb (by simp [h]), hu]⟩

/-! ### The claims -/

/-- C1: over any number of consecutive runs of `refresh` whose fetched statuses
all carry the same title, whatever the other answers of the outside in each
run, the edit of the channel information is issued at most once; and a run on a
playing status whose title is `state.Title` returns nil after the fetch alone,
without validating the token and without any call on the remote platform. -/
theorem poll_cycle_idempotent (t : String) (es : List Env) (w : World)
    (h : ∀ e ∈ es, ∀ data, e.fetchPlayerStatus = .ok data → titleOf data = t) :
    (runsEvents es w).countP Event.isEdit ≤ 1
      ∧ ∀ (e : Env) (w1 : World) (data : H), e.fetchPlayerStatus = .ok data →
          deepGetString data "state" = "playing" → titleOf data = w1.state.Title →
          refresh e w1 = (none, w1.emit .fetchPlayerStatus)
            ∧ refreshEvents e w1 = [Event.fetchPlayerStatus] := by
  refine ⟨(runs_edit_count t es h w).2, ?_⟩
  intro e w1 data hf _ ht
  have hrun := refresh_same_title e w1 data hf ht
  exact ⟨hrun, by simp [refreshEvents, hrun, World.emit]⟩

/-- Witness of `poll_cycle_idempotent`: "Song A" is fetched in four runs, the
edit failing in the first one. -/
theorem poll_cycle_idempotent_witness :
    (runsEvents [envEditFails, envValid, envExpired, envValid] world0).countP Event.isEdit ≤ 1 :=
  (poll_cycle_idempotent "Song A" [envEditFails, envValid, envExpired, envValid] world0 (by
    intro e he data hf
    simp only [List.mem_cons, List.mem_singleton, List.not_mem_nil, or_false] at he
    rcases he with rfl | rfl | rfl | rfl <;>
      · simp only [envEditFails, envValid, envExpired, Except.ok.injEq] at hf
        subst hf
        decide)).1

/-- C2: a fetched player status whose `state` is not "playing" makes `refresh`
return nil after the fetch alone: no validation, no token refresh, no lookup,
no edit, no write of the state file, and `state`, the client and the file are
as before. -/
theorem refresh_not_playing (e : Env) (w : World) (data : H)
    (hf : e.fetchPlayerStatus = .ok data) (hs : deepGetString data "state" ≠ "playing") :
    (refresh e w).1 = none
      ∧ refreshEvents e w = [Event.fetchPlayerStatus]
      ∧ (refresh e w).2.state = w.state
      ∧ (refresh e w).2.client = w.client
      ∧ (refresh e w).2.file = w.file := by
  simp [refresh, refreshEvents, hf, hs, World.emit]

/-- Witness of `refresh_not_playing`: a status without a `state` field. -/
theorem refresh_not_playing_witness :
    (refresh envStopped world0).1 = none
      ∧ refreshEvents envStopped world0 = [Event.fetchPlayerStatus]
      ∧ (refresh envStopped world0).2.state = world0.state
      ∧ (refresh envStopped world0).2.client = world0.client
      ∧ (refresh envStopped world0).2.file = world0.file :=
  refresh_not_playing envStopped world0 [] rfl (by decide)

/-- C4, as stated, fails: in a run whose edit fails, `state.Title` and
`state.GameName` are the fetched title and album afterwards, not their values
before the run, and a following run on the same playing status, in which every
call would succeed, issues no edit. -/
theorem state_advances_on_failed_edit :
    (refresh envEditFails world0).1 = some "edit failed"
      ∧ refreshEvents envEditFails world0 = [Event.fetchPlayerStatus,
          Event.validateToken "old-access", Event.getGames "old-access" ["Game A"],
          Event.editChannelInformation "old-access" ⟨"42", "1001", "Song A"⟩]
      ∧ (refresh envEditFails world0).2.state.Title ≠ world0.state.Title
      ∧ (refresh envEditFails world0).2.state.GameName ≠ world0.state.GameName
      ∧ envValid.fetchPlayerStatus = envEditFails.fetchPlayerStatus
      ∧ refreshEvents envValid (refresh envEditFails world0).2 = [Event.fetchPlayerStatus] := by
  refine ⟨by decide, by decide, by decide, by decide, rfl, by decide⟩

/-- C4, amended: on a playing status with a new title, `state.Title` and
`state.GameName` are set to the fetched title and album once the token check
has succeeded, before the lookup and whatever the outcome of the lookup, the
render and the edit; a following run that fetches the same title returns nil
after the fetch alone.  When the token check fails, the run returns its error
and the two fields are as before. -/
theorem state_advances_before_update (e : Env) (w : World) (data : H)
    (hf : e.fetchPlayerStatus = .ok data) (hp : deepGetString data "state" = "playing")
    (ht : w.state.Title ≠ titleOf data) :
    (∀ uid, (checkAccessToken e (w.emit .fetchPlayerStatus)).1 = .ok uid →
        (refresh e w).2.state.Title = titleOf data
          ∧ (refresh e w).2.state.GameName = deepGetString data "information.category.meta.album"
          ∧ ∀ (e2 : Env) (data2 : H), e2.fetchPlayerStatus = .ok data2 →
              titleOf data2 = titleOf data →
              refresh e2 (refresh e w).2 = (none, (refresh e w).2.emit .fetchPlayerStatus))
      ∧ (∀ err, (checkAccessToken e (w.emit .fetchPlayerStatus)).1 = .error err →
          (refresh e w).1 = some err
            ∧ (refresh e w).2.state.Title = w.state.Title
            ∧ (refresh e w).2.state.GameName = w.state.GameName) := by
  obtain ⟨hT, hG, -⟩ := checkAccessToken_frame e (w.emit .fetchPlayerStatus)
  rw [refresh_playing_new e w data hf hp ht]
  rcases hck : checkAccessToken e (w.emit .fetchPlayerStatus) with ⟨err | uid, w1⟩
  · rw [hck] at hT hG
    simp only [World.emit] at hT hG
    refine ⟨by simp, ?_⟩
    intro err1 h1
    simp only [Except.error.injEq] at h1
    subst h1
    exact ⟨rfl, hT, hG⟩
  · obtain ⟨hst, -, -, -⟩ := updateChannelInformation_frame e uid
      { w1 with state := { w1.state with
          GameName := deepGetString data "information.category.meta.album",
          Title := titleOf data } }
    refine ⟨?_, by simp⟩
    intro _ _
    simp only []
    refine ⟨by rw [hst], by rw [hst], ?_⟩
    intro e2 data2 hf2 ht2
    exact refresh_same_title e2 _ data2 hf2 (by rw [hst]; exact ht2)

/-- Witness of `state_advances_before_update`: the run in which the edit
fails. -/
theorem state_advances_before_update_witness :
    (refresh envEditFails world0).2.state.Title = "Song A"
      ∧ (refresh envEditFails world0).2.state.GameName = "Game A"
      ∧ refresh envValid (refresh envEditFails world0).2
          = (none, (refresh envEditFails world0).2.emit .fetchPlayerStatus) :=
  have h := (state_advances_before_update envEditFails world0 statusSongA rfl (by decide)
    (by decide)).1 "42" rfl
  ⟨h.1, h.2.1, h.2.2 envValid statusSongA rfl rfl⟩

/-- C5, as stated, fails: a record with a game name and a title, saved and
loaded into an empty record, comes back without them. -/
theorem save_load_drops_game_and_title :
    (State.Save ⟨"a", "r", "Game A", "Song A"⟩ envValid world0).1 = none
      ∧ State.Load State.empty
          (osReadFile (State.Save ⟨"a", "r", "Game A", "Song A"⟩ envValid world0).2.file)
        = (none, ⟨"a", "r", "", ""⟩)
      ∧ (State.Load State.empty
          (osReadFile (State.Save ⟨"a", "r", "Game A", "Song A"⟩ envValid world0).2.file)).2
        ≠ ⟨"a", "r", "Game A", "Song A"⟩ := by
  refine ⟨by decide, by decide, by decide⟩

/-- C5, amended: `Save` on a record, when the write succeeds, followed by
`Load` on an empty record over the file written, succeeds and yields the
`AccessToken` and the `RefreshToken` of the record saved, with `GameName` and
`Title` empty; loaded into any record, the file sets the two tokens and leaves
`GameName` and `Title` of that record as they are. -/
theorem save_load_round_trip (s : State) (e : Env) (w : World) (data : Bytes)
    (hm : jsonMarshal s = .ok data) (hw : e.writeFile data = none) :
    (State.Save s e w).1 = none
      ∧ (State.Save s e w).2.file = some data
      ∧ State.Load State.empty (osReadFile (State.Save s e w).2.file)
          = (none, ⟨s.AccessToken, s.RefreshToken, "", ""⟩)
      ∧ ∀ s0 : State, State.Load s0 (osReadFile (State.Save s e w).2.file)
          = (none, ⟨s.AccessToken, s.RefreshToken, s0.GameName, s0.Title⟩) := by
  have hsave : State.Save s e w = (none, { w.emit (.writeFile data) with file := some data }) := by
    simp only [State.Save, hm, hw]
  have hload : ∀ s0 : State, State.Load s0 (osReadFile (some data))
      = (none, ⟨s.AccessToken, s.RefreshToken, s0.GameName, s0.Title⟩) := by
    intro s0
    simp only [State.Load, osReadFile, jsonUnmarshal_jsonMarshal s s0 data hm]
  rw [hsave]
  exact ⟨rfl, rfl, hload State.empty, hload⟩

/-- Witness of `save_load_round_trip`: tokens with characters that are
escaped in the file. -/
theorem save_load_round_trip_witness :
    State.Load State.empty
        (osReadFile (State.Save ⟨"a\"<b>\\", "r\n&", "Game A", "Song A"⟩ envValid world0).2.file)
      = (none, ⟨"a\"<b>\\", "r\n&", "", ""⟩) :=
  (save_load_round_trip ⟨"a\"<b>\\", "r\n&", "Game A", "Song A"⟩ envValid world0
    "\x7b\"access_token\":\"a\\\"\\u003cb\\u003e\\\\\",\"refresh_token\":\"r\\n\\u0026\"\x7d".data
    rfl rfl).2.2.1

/-- C6: on a playing status with a new title, when validation reports the
token invalid and the exchange of the refresh token fails, `refresh` returns
that error after the fetch, the validation and the exchange alone: no lookup,
no edit, no write of the state file; `state`, the client's token and the file
are as before, and the next such run validates the same token again. -/
theorem refresh_failed_token_refresh (e : Env) (w : World) (data : H)
    (vr : ValidateTokenResponse) (err : Error)
    (hf : e.fetchPlayerStatus = .ok data) (hp : deepGetString data "state" = "playing")
    (ht : w.state.Title ≠ titleOf data)
    (hv : e.validateToken w.client.userAccessToken = .ok (false, vr))
    (hr : e.refreshUserAccessToken w.state.RefreshToken = .error err) :
    (refresh e w).1 = some err
      ∧ refreshEvents e w = [Event.fetchPlayerStatus,
          Event.validateToken w.client.userAccessToken,
          Event.refreshUserAccessToken w.state.RefreshToken]
      ∧ (refresh e w).2.state = w.state
      ∧ (refresh e w).2.client = w.client
      ∧ (refresh e w).2.file = w.file
      ∧ ∀ (e2 : Env) (data2 : H), e2.fetchPlayerStatus = .ok data2 →
          deepGetString data2 "state" = "playing" → w.state.Title ≠ titleOf data2 →
          ∃ rest, refreshEvents e2 (refresh e w).2
            = Event.fetchPlayerStatus :: Event.validateToken w.client.userAccessToken :: rest := by
  have hrun : refresh e w = (some err,
      { w with trace := w.trace ++ [Event.fetchPlayerStatus,
          Event.validateToken w.client.userAccessToken,
          Event.refreshUserAccessToken w.state.RefreshToken] }) := by
    simp only [titleOf] at ht
    simp [refresh, hf, hp, World.emit, ht, checkAccessToken, hv, hr]
  refine ⟨by rw [hrun], by simp [refreshEvents, hrun], by rw [hrun], by rw [hrun], by rw [hrun], ?_⟩
  intro e2 data2 hf2 hp2 ht2
  have h := refreshEvents_playing_new e2 (refresh e w).2 data2 hf2 hp2 (by rw [hrun]; exact ht2)
  rw [hrun] at h ⊢
  exact h

/-- Witness of `refresh_failed_token_refresh`: the refresh token is revoked
while "Song A" starts to play. -/
theorem refresh_failed_token_refresh_witness :
    (refresh envRevoked world0).1 = some "invalid refresh token"
      ∧ refreshEvents envRevoked world0 = [Event.fetchPlayerStatus,
          Event.validateToken "old-access", Event.refreshUserAccessToken "old-refresh"]
      ∧ (refresh envRevoked world0).2.state = world0.state :=
  have h := refresh_failed_token_refresh envRevoked world0 statusSongA ⟨""⟩
    "invalid refresh token" rfl (by decide) (by decide) rfl rfl
  ⟨h.1, h.2.1, h.2.2.1⟩

/-- C7: on a playing status with a new title, when validation reports the
token invalid and the exchange of the refresh token, the save, the lookup, the
render and the edit succeed, `refresh` returns nil; `state` holds the new pair
(and the fetched album and title), the state file holds the marshalled new
pair (loading it yields the pair), the client holds the new access token, and
the calls of the run are, in this order: fetch, validation, exchange, write of
the state file, lookup, edit, the last two under the new access token; the edit
is issued exactly once. -/
theorem refresh_after_token_refresh (e : Env) (w : World) (data : H)
    (vr : ValidateTokenResponse) (resp : RefreshTokenResponse) (saved : Bytes)
    (games : List Game) (out : String)
    (hf : e.fetchPlayerStatus = .ok data) (hp : deepGetString data "state" = "playing")
    (ht : w.state.Title ≠ titleOf data)
    (hv : e.validateToken w.client.userAccessToken = .ok (false, vr))
    (hr : e.refreshUserAccessToken w.state.RefreshToken = .ok resp)
    (hm : jsonMarshal ⟨resp.AccessToken, resp.RefreshToken, w.state.GameName, w.state.Title⟩
            = .ok saved)
    (hw : e.writeFile saved = none)
    (hg : e.getGames resp.AccessToken [deepGetString data "information.category.meta.album"]
            = .ok games)
    (hx : e.titleTemplate ⟨resp.AccessToken, resp.RefreshToken,
            deepGetString data "information.category.meta.album", titleOf data⟩ = (out, none))
    (he : e.editChannelInformation resp.AccessToken
            ⟨vr.UserID, (games.head?.map Game.ID).getD "", out⟩ = none) :
    (refresh e w).1 = none
      ∧ (refresh e w).2.state = ⟨resp.AccessToken, resp.RefreshToken,
          deepGetString data "information.category.meta.album", titleOf data⟩
      ∧ (refresh e w).2.file = some saved
      ∧ State.Load State.empty (osReadFile (refresh e w).2.file)
          = (none, ⟨resp.AccessToken, resp.RefreshToken, "", ""⟩)
      ∧ (refresh e w).2.client.userAccessToken = resp.AccessToken
      ∧ refreshEvents e w = [Event.fetchPlayerStatus,
          Event.validateToken w.client.userAccessToken,
          Event.refreshUserAccessToken w.state.RefreshToken,
          Event.writeFile saved,
          Event.getGames resp.AccessToken [deepGetString data "information.category.meta.album"],
          Event.editChannelInformation resp.AccessToken
            ⟨vr.UserID, (games.head?.map Game.ID).getD "", out⟩]
      ∧ (refreshEvents e w).countP Event.isEdit = 1 := by
  have hck : checkAccessToken e (w.emit .fetchPlayerStatus) = (.ok vr.UserID,
      { state := ⟨resp.AccessToken, resp.RefreshToken, w.state.GameName, w.state.Title⟩,
        client := ⟨resp.AccessToken⟩, file := some saved,
        trace := w.trace ++ [Event.fetchPlayerStatus,
          Event.validateToken w.client.userAccessToken,
          Event.refreshUserAccessToken w.state.RefreshToken, Event.writeFile saved] }) := by
    simp [checkAccessToken, World.emit, hv, hr, State.Save, hm, hw]
  have hrun : refresh e w = (none,
      { state := ⟨resp.AccessToken, resp.RefreshToken,
          deepGetString data "information.category.meta.album", titleOf data⟩,
        client := ⟨resp.AccessToken⟩, file := some saved,
        trace := w.trace ++ [Event.fetchPlayerStatus,
          Event.validateToken w.client.userAccessToken,
          Event.refreshUserAccessToken w.state.RefreshToken, Event.writeFile saved,
          Event.getGames resp.AccessToken [deepGetString data "information.category.meta.album"],
          Event.editChannelInformation resp.AccessToken
            ⟨vr.UserID, (games.head?.map Game.ID).getD "", out⟩] }) := by
    rw [refresh_playing_new e w data hf hp ht, hck]
    cases games <;>
      simp_all [updateChannelInformation, World.emit, formatTemplate]
  refine ⟨by rw [hrun], by rw [hrun], by rw [hrun], ?_, by rw [hrun], ?_, ?_⟩
  · rw [hrun]
    simp only [State.Load, osReadFile, jsonUnmarshal_jsonMarshal _ State.empty saved hm]
    rfl
  · simp [refreshEvents, hrun]
  · simp [refreshEvents, hrun, List.countP_cons, Event.isEdit]

/-- Witness of `refresh_after_token_refresh`: "old-access" has expired while
"Song A" starts to play. -/
theorem refresh_after_token_refresh_witness :
    (refresh envExpired world0).2.state = ⟨"new-access", "new-refresh", "Game A", "Song A"⟩
      ∧ (refresh envExpired world0).2.file
          = some "\x7b\"access_token\":\"new-access\",\"refresh_token\":\"new-refresh\"\x7d".data
      ∧ (refreshEvents envExpired world0).countP Event.isEdit = 1 :=
  have h := refresh_after_token_refresh envExpired world0 statusSongA ⟨""⟩
    ⟨"new-access", "new-refresh"⟩
    "\x7b\"access_token\":\"new-access\",\"refresh_token\":\"new-refresh\"\x7d".data
    [⟨"1001", "Game A"⟩, ⟨"1002", "Game A II"⟩] "Song A"
    rfl (by decide) (by decide) rfl rfl rfl rfl rfl rfl rfl
  ⟨h.2.1, h.2.2.1, h.2.2.2.2.2.2⟩

/-- C8, the code at the failing input: "old-access" has expired, the exchange
returns "new-access", which the platform holds valid and owned by the user
"42"; the edit is made under "new-access" with the `BroadcasterID` of the
validation response that reported "old-access" invalid, the empty string.  In
the run in which the token is valid, the edit carries the identifier of its
owner. -/
theorem broadcaster_after_token_refresh :
    refreshEvents envExpired world0 = [Event.fetchPlayerStatus,
        Event.validateToken "old-access", Event.refreshUserAccessToken "old-refresh",
        Event.writeFile "\x7b\"access_token\":\"new-access\",\"refresh_token\":\"new-refresh\"\x7d".data,
        Event.getGames "new-access" ["Game A"],
        Event.editChannelInformation "new-access" ⟨"", "1001", "Song A"⟩]
      ∧ envExpired.validateToken "old-access" = .ok (false, ⟨""⟩)
      ∧ envExpired.validateToken "new-access" = .ok (true, ⟨"42"⟩)
      ∧ refreshEvents envValid world0 = [Event.fetchPlayerStatus,
          Event.validateToken "old-access", Event.getGames "old-access" ["Game A"],
          Event.editChannelInformation "old-access" ⟨"42", "1001", "Song A"⟩]
      ∧ envValid.validateToken "old-access" = .ok (true, ⟨"42"⟩) :=
  ⟨by decide, rfl, rfl, by decide, rfl⟩

/-- C9: `Load` returns nil and leaves the record as it is when the state file
cannot be read, in particular when there is none; it returns an error exactly
when the file was read and its content does not decode into the record. -/
theorem load_fails_only_on_malformed_data (s : State) :
    (∀ err, State.Load s (.error err) = (none, s))
      ∧ State.Load s (osReadFile none) = (none, s)
      ∧ (∀ read, (State.Load s read).1 ≠ none
          ↔ ∃ data, read = .ok data ∧ (jsonUnmarshal data s).1 ≠ none)
      ∧ State.Load s (osReadFile (some "\x7b\"access_token\":".data)) = (some "json: syntax error", s)
      ∧ State.Load s (osReadFile (some "\x7b\x7d".data)) = (none, s) := by
  refine ⟨fun _ => rfl, rfl, ?_, rfl, rfl⟩
  intro read
  cases read with
  | error err => simp [State.Load]
  | ok data =>
    simp only [State.Load, Except.ok.injEq, exists_eq_left']
    rcases jsonUnmarshal data s with ⟨_ | err, s1⟩ <;> simp

/-- C10: `updateChannelInformation` looks up the one name `state.GameName`; when
the lookup and the render succeed, the edit is issued with the identifier of
the first game of the result, or with the empty string when the result is
empty, and the result of `updateChannelInformation` is the result of the edit:
an empty lookup result is no error and skips nothing.  In a run of `refresh`
the name looked up is the fetched album. -/
theorem updateChannelInformation_category (e : Env) (b : String) (w : World)
    (games : List Game) (out : String)
    (hg : e.getGames w.client.userAccessToken [w.state.GameName] = .ok games)
    (hx : e.titleTemplate w.state = (out, none)) :
    (updateChannelInformation e b w).1
        = e.editChannelInformation w.client.userAccessToken
            ⟨b, (games.head?.map Game.ID).getD "", out⟩
      ∧ (updateChannelInformation e b w).2.trace
        = w.trace ++ [Event.getGames w.client.userAccessToken [w.state.GameName],
            Event.editChannelInformation w.client.userAccessToken
              ⟨b, (games.head?.map Game.ID).getD "", out⟩]
      ∧ (games = [] → (updateChannelInformation e b w).2.trace
        = w.trace ++ [Event.getGames w.client.userAccessToken [w.state.GameName],
            Event.editChannelInformation w.client.userAccessToken ⟨b, "", out⟩])
      ∧ ∀ (e1 : Env) (w1 : World) (data : H) (t : String) (names : List String),
          e1.fetchPlayerStatus = .ok data → Event.getGames t names ∈ refreshEvents e1 w1 →
          names = [deepGetString data "information.category.meta.album"] := by
  have hrun := updateChannelInformation_ok e b w games out hg hx
  refine ⟨by rw [hrun], by rw [hrun], ?_, ?_⟩
  · intro hnil
    subst hnil
    rw [hrun]
    rfl
  · intro e1 w1 data t names hf hmem
    obtain ⟨l1, l2, hparts, hnone, -, hl2⟩ := refreshEvents_parts e1 w1
    rw [hparts, List.mem_append] at hmem
    rcases hmem with hmem | hmem
    · have := hnone _ hmem
      simp [Event.token?] at this
    · obtain ⟨-, -, data1, hf1, -, -, hnames⟩ := hl2 _ hmem
      rw [hf] at hf1
      cases hf1
      exact hnames t names rfl

/-- Witness of `updateChannelInformation_category`: the platform knows no game
of the name "Game B". -/
theorem updateChannelInformation_category_witness :
    (updateChannelInformation envNoGame "42"
        { world0 with state := ⟨"old-access", "old-refresh", "Game B", "Song B"⟩ }).1 = none
      ∧ (updateChannelInformation envNoGame "42"
        { world0 with state := ⟨"old-access", "old-refresh", "Game B", "Song B"⟩ }).2.trace
        = [Event.getGames "old-access" ["Game B"],
            Event.editChannelInformation "old-access" ⟨"42", "", "Song B"⟩] :=
  have h := updateChannelInformation_category envNoGame "42"
    { world0 with state := ⟨"old-access", "old-refresh", "Game B", "Song B"⟩ } [] "Song B" rfl rfl
  ⟨h.1, h.2.1⟩

end Kupo
